import Mathlib

/-!
# Verification of the ADB scanner core (`adb_scanner_v5.2_FINAL.py`)

A shallow embedding of the scanner's validator, target-space generator,
aggregation engine and CSV export, together with theorems settling the
specification claims about them.

Python strings are modelled as `List Char` (`Str`), so that every string
operation used by the source (`split`, `strip`, `int(...)`) is a structural
recursion that evaluates inside the kernel.  Python `int` is modelled as
`Int` (arbitrary precision, as in CPython); machine floats appear only in
the `timeout` setting and are modelled exactly as rationals, since the
source only compares the timeout against the decimal constants 0.1 and
10.0.
-/

/-- Python strings, modelled as lists of characters. -/
abbrev Str := List Char

namespace AdbScanner

/-- Characters accepted by Python's `str.strip()` / `int(...)` whitespace
stripping (the ASCII whitespace characters; exotic Unicode whitespace is
not used by any claim). -/
def isPySpace (c : Char) : Bool :=
  c == ' ' || c == '\t' || c == '\n' || c == '\r' || c == '\x0b' || c == '\x0c'

/-- `str.strip()`: drop whitespace from both ends. -/
def pyStrip (s : Str) : Str :=
  ((s.dropWhile isPySpace).reverse.dropWhile isPySpace).reverse

/-- Single-separator `str.split(sep)` for a one-character separator, with
CPython semantics: `"".split('.') = [""]`, `"a.".split('.') = ["a", ""]`. -/
def splitOnChar (sep : Char) : Str → List Str
  | [] => [[]]
  | c :: cs =>
    let rest := splitOnChar sep cs
    if c == sep then
      [] :: rest
    else
      match rest with
      | r :: rs => (c :: r) :: rs
      | [] => [[c]]

/-- Numeric value of a string of decimal digits (most significant first). -/
def digitsVal (s : Str) : Nat :=
  s.foldl (fun n c => 10 * n + (c.toNat - 48)) 0

/-- Python `int(s)` on a decimal string: strip whitespace, allow one
optional sign, then a nonempty run of ASCII digits; anything else raises
`ValueError`, modelled as `none`.  (CPython's underscore digit separators
and non-ASCII digits are not exercised by the source or the claims.) -/
def pyInt? (s : Str) : Option Int :=
  match pyStrip s with
  | [] => none
  | c :: ds =>
    if c = '+' then
      if ds ≠ [] && ds.all Char.isDigit then some (digitsVal ds) else none
    else if c = '-' then
      if ds ≠ [] && ds.all Char.isDigit then some (-(digitsVal ds : Int)) else none
    else if (c :: ds).all Char.isDigit then some (digitsVal (c :: ds)) else none

/-- Decimal rendering of a natural number, by fuel-bounded recursion
(`natStrAux (n+1) n` always has enough fuel). -/
def natStrAux : Nat → Nat → Str
  | 0, _ => []
  | fuel + 1, n =>
    if n < 10 then [Nat.digitChar n]
    else natStrAux fuel (n / 10) ++ [Nat.digitChar (n % 10)]

/-- Python `str(n)` for a natural number. -/
def natStr (n : Nat) : Str := natStrAux (n + 1) n

/-- Python `str(i)` for an integer. -/
def intStr (i : Int) : Str :=
  if i < 0 then '-' :: natStr i.natAbs else natStr i.toNat

/-! ## Validator (source lines 49–63) -/

/-- One regex group `\d{1,3}`: a run of one to three ASCII digits. -/
def octetRun (p : Str) : Bool :=
  decide (1 ≤ p.length) && decide (p.length ≤ 3) && p.all Char.isDigit

/-- Python's `$` anchor matches at the end of the string or just before a
single final newline; equivalently, the regex tolerates one trailing
`'\n'` on its last group.  This strips that optional final newline. -/
def stripFinalNl (p : Str) : Str :=
  if p.getLast? == some '\n' then p.dropLast else p

/-- `re.match(r'^(\d{1,3}\.){3}\d{1,3}$', s)`: exactly four dot-separated
runs of 1–3 digits, where the `$` anchor additionally tolerates a single
trailing newline (CPython semantics of `$`). -/
def reMatchIp (s : Str) : Bool :=
  match splitOnChar '.' s with
  | [p1, p2, p3, p4] =>
    octetRun p1 && octetRun p2 && octetRun p3 && octetRun (stripFinalNl p4)
  | _ => false

/-- `0 <= int(p) <= 255` for one dot-separated part.  After the regex has
matched, `int(p)` cannot raise; the `none` branch is unreachable there. -/
def octetValOk (p : Str) : Bool :=
  match pyInt? p with
  | some v => decide (0 ≤ v) && decide (v ≤ 255)
  | none => false

/-- `validate_ip` (source lines 49–55): regex match, then every
dot-separated part has integer value in `[0, 255]`. -/
def validate_ip (s : Str) : Bool :=
  reMatchIp s && (splitOnChar '.' s).all octetValOk

/-- `validate_port` (source lines 57–59): `1 <= port <= 65535`. -/
def validate_port (p : Int) : Bool :=
  decide (1 ≤ p) && decide (p ≤ 65535)

/-- `validate_threads` (source lines 61–63): `1 <= threads <= 200`. -/
def validate_threads (t : Int) : Bool :=
  decide (1 ≤ t) && decide (t ≤ 200)

/-! ## Target space generator: IP range (source lines 153–191) -/

/-- `ip_to_tuple` (source lines 153–158): `tuple(map(int, ip.split('.')))`,
with any `ValueError` caught and replaced by `(0, 0, 0, 0)`.  The tuple has
the same length as the split, hence a `List Int`. -/
def ip_to_tuple (s : Str) : List Int :=
  match (splitOnChar '.' s).mapM pyInt? with
  | some vs => vs
  | none => [0, 0, 0, 0]

/-- An IPv4 tuple of Python integers. -/
abbrev Tup4 := Int × Int × Int × Int

/-- The 32-bit numeric value `a·2²⁴ + b·2¹⁶ + c·2⁸ + d` of a tuple. -/
def tupNum (t : Tup4) : Int :=
  16777216 * t.1 + 65536 * t.2.1 + 256 * t.2.2.1 + t.2.2.2

/-- Python's lexicographic `<=` on 4-tuples (`tuple(current) <= end`). -/
def tupLe (t u : Tup4) : Bool :=
  decide (t.1 < u.1) ||
    (decide (t.1 = u.1) &&
      (decide (t.2.1 < u.2.1) ||
        (decide (t.2.1 = u.2.1) &&
          (decide (t.2.2.1 < u.2.2.1) ||
            (decide (t.2.2.1 = u.2.2.1) && decide (t.2.2.2 ≤ u.2.2.2))))))

/-- The increment step of `generate_ip_range` (source lines 176–186):
octet 4 rolls into octet 3, and so on; octet 1 is never capped. -/
def incTup (t : Tup4) : Tup4 :=
  let (a, b, c, d) := t
  if d + 1 > 255 then
    if c + 1 > 255 then
      if b + 1 > 255 then (a + 1, 0, 0, 0)
      else (a, b + 1, 0, 0)
    else (a, b, c + 1, 0)
  else (a, b, c, d + 1)

/-- `'.'.join(map(str, current))`. -/
def tupStr (t : Tup4) : Str :=
  intStr t.1 ++ ('.' :: (intStr t.2.1 ++ ('.' :: (intStr t.2.2.1 ++ ('.' :: intStr t.2.2.2)))))

/-- The `while tuple(current) <= end` loop of `generate_ip_range`,
fuel-bounded.  `generate_ip_range` supplies fuel `2³²`, which is enough
for every reachable state (proved below); the fuel only makes the
recursion structural. -/
def genLoop : Nat → Tup4 → Tup4 → List Str
  | 0, _, _ => []
  | fuel + 1, cur, stop =>
    if tupLe cur stop then tupStr cur :: genLoop fuel (incTup cur) stop
    else []

/-- `generate_ip_range` (source lines 160–191): validate both endpoints
(else return `[]`), convert to tuples, and enumerate.  The catch-all tuple
arm models the `except` clause (an endpoint whose tuple does not have four
components would raise `IndexError`, caught at line 189; unreachable after
validation). -/
def generate_ip_range (ip_start ip_end : Str) : List Str :=
  if validate_ip ip_start && validate_ip ip_end then
    match ip_to_tuple ip_start, ip_to_tuple ip_end with
    | [a, b, c, d], [e, f, g, h] => genLoop 4294967296 (a, b, c, d) (e, f, g, h)
    | _, _ => []
  else []

/-- The canonical tuple of a 32-bit value (inverse of `tupNum` on
in-range tuples). -/
def numToTup (n : Int) : Tup4 :=
  (n / 16777216, n / 65536 % 256, n / 256 % 256, n % 256)

/-- The specification-side address sequence: the canonical dotted-quad
strings of the consecutive integers `lo, lo+1, …, hi` (empty when
`lo > hi`). -/
def addrSeq (lo hi : Int) : List Str :=
  (List.range (hi + 1 - lo).toNat).map (fun (i : Nat) => tupStr (numToTup (lo + (i : Int))))

/-- The 32-bit numeric value of a dotted-quad string (0 if the string does
not parse into four integers). -/
def ipNum (s : Str) : Int :=
  match ip_to_tuple s with
  | [a, b, c, d] => tupNum (a, b, c, d)
  | _ => 0

/-! ## Target space generator: ports (source lines 193–219)

The Python `set` of ports is modelled as a duplicate-free `List Int`
(`setAdd` inserts only when absent); the final `sorted(list(ports))` is an
insertion sort. -/

/-- `range(a, b + 1)` as a list of integers (empty when `a > b`). -/
def intRange (a b : Int) : List Int :=
  (List.range (b + 1 - a).toNat).map (fun i => a + i)

/-- Add one element to the set (no effect when already present). -/
def setAdd (s : List Int) (p : Int) : List Int :=
  if p ∈ s then s else s ++ [p]

/-- `ports.update(it)` / repeated `ports.add`. -/
def setUnion (s : List Int) (ps : List Int) : List Int :=
  ps.foldl setAdd s

/-- Insert into a `≤`-sorted list, keeping it sorted. -/
def insertSorted (p : Int) : List Int → List Int
  | [] => [p]
  | x :: xs => if p ≤ x then p :: x :: xs else x :: insertSorted p xs

/-- `sorted(l)`: insertion sort. -/
def sortList (l : List Int) : List Int :=
  l.foldr insertSorted []

/-- The contribution of one (already stripped) comma-token of the custom
port specification (source lines 204–215): `some` of the set of ports the
token adds, or `none` when evaluating the token raises `ValueError`
(a non-integer single token, or a two-part dash token with a non-integer
part).  A dash token with a part count other than two, an out-of-range
bound, or inverted bounds contributes nothing but does not raise. -/
def tokenPorts? (t : Str) : Option (List Int) :=
  if t.elem '-' then
    match splitOnChar '-' t with
    | [lo, hi] =>
      match pyInt? lo, pyInt? hi with
      | some p1, some p2 =>
        if validate_port p1 && validate_port p2 && decide (p1 ≤ p2) then
          some (intRange p1 p2)
        else some []
      | _, _ => none
    | _ => some []
  else
    match pyInt? t with
    | some p => if validate_port p then some [p] else some []
    | none => none

/-- The token loop of `parse_ports`.  The `try` block wraps the whole
loop, so a token that raises abandons the remaining tokens and returns
the ports collected so far (source lines 203–217). -/
def addTokens : List Str → List Int → List Int
  | [], acc => acc
  | t :: ts, acc =>
    match tokenPorts? t with
    | some s => addTokens ts (setUnion acc s)
    | none => acc

/-- `parse_ports` over an already-split token list: base range first
(added only when both bounds are valid ports), then the tokens, then
`sorted`. -/
def parsePortsTokens (tokens : List Str) (port_start port_end : Int) : List Int :=
  let base :=
    if validate_port port_start && validate_port port_end then
      setUnion [] (intRange port_start (port_end))
    else []
  sortList (addTokens tokens base)

/-- `parse_ports` (source lines 193–219). -/
def parse_ports (port_string : Str) (port_start port_end : Int) : List Int :=
  parsePortsTokens ((splitOnChar ',' port_string).map pyStrip) port_start port_end

/-! ## Data model (source lines 69–146) -/

/-- The messages `ScanSettings.validate` can produce, carried as
structured data rather than formatted strings (the formatting of the
Python f-strings is injective in the carried payloads, so nothing is lost;
`ok` stands for the string `"OK"`). -/
inductive ErrMsg : Type
  | ok : ErrMsg
  | invalidIpStart (s : Str) : ErrMsg
  | invalidIpEnd (s : Str) : ErrMsg
  | invalidPortStart (p : Int) : ErrMsg
  | invalidPortEnd (p : Int) : ErrMsg
  | portOrder : ErrMsg
  | invalidThreads (t : Int) : ErrMsg
  | invalidTimeout (t : ℚ) : ErrMsg
deriving DecidableEq, Inhabited

/-- `ScanSettings` (source lines 69–97).  `timeout` is a CPython float
compared only against 0.1 and 10.0, modelled exactly as a rational. -/
structure ScanSettings : Type where
  ip_start : Str := "192.168.1.1".data
  ip_end : Str := "192.168.1.255".data
  port_start : Int := 5037
  port_end : Int := 5037
  custom_ports : Str := "5037,5555,22,23".data
  timeout : ℚ := 1
  threads : Int := 50
  retry_count : Int := 2
  scan_adb : Bool := true
  scan_ssh : Bool := true
  scan_telnet : Bool := true
  scan_custom : Bool := false
  skip_ping : Bool := false
  use_async : Bool := true
  profile : Str := "balanced".data
deriving DecidableEq, Inhabited

/-- `ScanSettings.validate` (source lines 99–115): the checks in source
order, first failure wins. -/
def ScanSettings.validate (st : ScanSettings) : Bool × ErrMsg :=
  if !validate_ip st.ip_start then (false, .invalidIpStart st.ip_start)
  else if !validate_ip st.ip_end then (false, .invalidIpEnd st.ip_end)
  else if !validate_port st.port_start then (false, .invalidPortStart st.port_start)
  else if !validate_port st.port_end then (false, .invalidPortEnd st.port_end)
  else if st.port_start > st.port_end then (false, .portOrder)
  else if !validate_threads st.threads then (false, .invalidThreads st.threads)
  else if !(decide (mkRat 1 10 ≤ st.timeout) && decide (st.timeout ≤ 10)) then
    (false, .invalidTimeout st.timeout)
  else (true, .ok)

/-- `DeviceInfo` (source lines 121–135).  The `timestamp` default is
`datetime.now().isoformat()`, abstracted to an opaque string supplied at
creation (wall-clock time is outside the embedding). -/
structure DeviceInfo : Type where
  ip : Str
  port : Int
  device_type : Str
  status : Str
  device_id : Str := []
  manufacturer : Str := []
  model : Str := []
  version : Str := []
  timestamp : Str := []
deriving DecidableEq, Inhabited

/-- `ScanResult` (source lines 138–146).  `scan_time` is elapsed
wall-clock time, abstracted to a rational; `timestamp` as in
`DeviceInfo`. -/
structure ScanResult : Type where
  devices : List DeviceInfo := []
  total_scanned : Int := 0
  total_found : Int := 0
  scan_time : ℚ := 0
  settings : ScanSettings := {}
  timestamp : Str := []
deriving DecidableEq, Inhabited

/-! ## Scan engine (source lines 225–442)

`ADBScanner` holds the engine's mutable state.  The probe layer
(`_ping_host`, `_check_port`, `_identify_device`, source lines 243–342)
performs network and subprocess I/O; its combined per-target outcome
`_scan_single_target` is abstracted as an input: the scan loop is driven
by the list of unit *completion events* in the order `as_completed`
yields them.  Each event records whether `stop_scan` was invoked (from
another thread) before the loop's `if not self.is_scanning` check ran,
and the unit's outcome: `found d` when `future.result()` returned a
`DeviceInfo`, `notFound` when it returned `None`, and `error` when it
raised (worker exception or result timeout, source lines 410–412). -/

/-- Outcome of one completed unit of work, as seen by the dispatch loop. -/
inductive UnitOutcome : Type
  | found (d : DeviceInfo) : UnitOutcome
  | notFound : UnitOutcome
  | error : UnitOutcome
deriving DecidableEq, Inhabited

/-- Engine state (source lines 228–232). -/
structure ADBScanner : Type where
  is_scanning : Bool := false
  devices_found : List (Str × DeviceInfo) := []
  scan_result : ScanResult := {}
deriving DecidableEq, Inhabited

/-- Notifications sent through the callback, as structured data (the
Python f-string renderings are injective in these payloads).  The float
progress percentage `scanned / total * 100` is carried as the pair
`(scanned, total)`. -/
inductive Notification : Type
  | validationError (e : ErrMsg) : Notification
  | noTargets : Notification
  | scanStart (total : Nat) : Notification
  | foundDevice (key : Str) (dtype : Str) (scanned total devices : Nat) : Notification
  | progress (scanned total : Nat) : Notification
  | complete (found scanned : Nat) : Notification
deriving DecidableEq, Inhabited

/-- The key `f"{device.ip}:{device.port}"` (source line 395). -/
def devKey (d : DeviceInfo) : Str :=
  d.ip ++ ':' :: intStr d.port

/-- Python-dict insertion: overwriting an existing key keeps its position
and replaces its value; a new key is appended. -/
def dictInsert (m : List (Str × DeviceInfo)) (k : Str) (v : DeviceInfo) :
    List (Str × DeviceInfo) :=
  match m with
  | [] => [(k, v)]
  | (k0, v0) :: rest =>
    if k0 = k then (k, v) :: rest else (k0, v0) :: dictInsert rest k v

/-- The `for future in as_completed(futures)` loop (source lines
386–412), returning the final scanned counter, the aggregation map, and
the notifications it emitted.  A `stopBefore` flag models `stop_scan`
having set `is_scanning := False` before this iteration's check, which
breaks the loop; the flag is never reset inside a run, so processing
stops at the first set flag. -/
def scanLoop : List (Bool × UnitOutcome) → Nat → List (Str × DeviceInfo) → Nat →
    Nat × List (Str × DeviceInfo) × List Notification
  | [], scanned, m, _ => (scanned, m, [])
  | (stopBefore, o) :: rest, scanned, m, total =>
    if stopBefore then (scanned, m, [])
    else
      match o with
      | .error => scanLoop rest (scanned + 1) m total
      | .notFound =>
        let scanned' := scanned + 1
        let r := scanLoop rest scanned' m total
        if scanned' % 10 = 0 then
          (r.1, r.2.1, .progress scanned' total :: r.2.2)
        else r
      | .found d =>
        let scanned' := scanned + 1
        let m' := dictInsert m (devKey d) d
        let r := scanLoop rest scanned' m' total
        (r.1, r.2.1, .foundDevice (devKey d) d.device_type scanned' total m'.length :: r.2.2)

/-- Result of one `scan_async` call: the engine state on return, the
notifications emitted (in order), and the `max_workers` value handed to
`ThreadPoolExecutor` (`none` when the pool was never created). -/
structure RunOut : Type where
  scanner : ADBScanner
  notes : List Notification
  workersUsed : Option Int
deriving DecidableEq, Inhabited

/-- `scan_async` (source lines 344–437).  Control flow from the source:
validate first and return unchanged on failure; cap `threads` at 200
(line 355 — unreachable after a successful validation); set
`is_scanning`, reset the map; generate targets and bail out when either
list is empty; run the dispatch loop; store the `ScanResult`; the
`finally` clause clears `is_scanning` on every path inside the `try`. -/
def scan_async (s : ADBScanner) (st : ScanSettings)
    (events : List (Bool × UnitOutcome)) : RunOut :=
  match st.validate with
  | (false, msg) => ⟨s, [.validationError msg], none⟩
  | (true, _) =>
    let st := if st.threads > 200 then { st with threads := 200 } else st
    let ips := generate_ip_range st.ip_start st.ip_end
    let ports := parse_ports st.custom_ports st.port_start st.port_end
    if ips.isEmpty || ports.isEmpty then
      ⟨{ s with
          is_scanning := false
          devices_found := [] },
        [.noTargets], none⟩
    else
      let total := ips.length * ports.length
      let r := scanLoop events 0 [] total
      let result : ScanResult :=
        { devices := r.2.1.map Prod.snd
          total_scanned := (r.1 : Int)
          total_found := (r.2.1.length : Int)
          settings := st }
      ⟨{ is_scanning := false, devices_found := r.2.1, scan_result := result },
        .scanStart total :: r.2.2 ++ [.complete r.2.1.length r.1],
        some st.threads⟩

/-- `stop_scan` (source lines 439–442): clear the flag and notify.  Not
needed by any claim theorem, kept for completeness of the engine
interface. -/
def stop_scan (s : ADBScanner) : ADBScanner :=
  { s with is_scanning := false }

/-! ## CSV export (source lines 462–476) -/

/-- The `fieldnames` list passed to `csv.DictWriter` (source line 468). -/
def csvFieldnames : List Str :=
  ["ip".data, "port".data, "device_type".data, "status".data,
    "device_id".data, "timestamp".data]

/-- `asdict(device)` (source lines 134–135): all nine dataclass fields in
declaration order. -/
def DeviceInfo.toDict (d : DeviceInfo) : List (Str × Str) :=
  [("ip".data, d.ip), ("port".data, intStr d.port),
    ("device_type".data, d.device_type), ("status".data, d.status),
    ("device_id".data, d.device_id), ("manufacturer".data, d.manufacturer),
    ("model".data, d.model), ("version".data, d.version),
    ("timestamp".data, d.timestamp)]

/-- One `DictWriter.writerow(row)`: with the default
`extrasaction='raise'`, a row dict containing a key outside `fieldnames`
raises `ValueError` (`none`); otherwise the row is the values in
`fieldnames` order. -/
def csvWriteRow (row : List (Str × Str)) : Option (List Str) :=
  if row.all (fun kv => kv.1 ∈ csvFieldnames) then
    some (csvFieldnames.map (fun k => ((row.find? (fun kv => kv.1 = k)).map Prod.snd).getD []))
  else none

/-- The row-writing loop of `export_csv` (source lines 471–473): rows are
written until the first `writerow` raises; the exception is caught at
line 475, so the file keeps whatever was written before it. -/
def csvWriteRows : List DeviceInfo → List (List Str)
  | [] => []
  | d :: ds =>
    match csvWriteRow d.toDict with
    | some row => row :: csvWriteRows ds
    | none => []

/-- `export_csv` (source lines 462–476), as the list of lines the file
contains on return: the header (written by `writeheader()` before any
row), then one line per successful `writerow`.  The second component
records whether a `ValueError` was caught (and logged). -/
def export_csv (devices : List DeviceInfo) : List Str × Bool :=
  (List.intercalate [','] csvFieldnames :: (csvWriteRows devices).map (List.intercalate [',']),
    decide ((csvWriteRows devices).length ≠ devices.length))

/-! ## Specification-side definitions

These follow the words of the specification and of the claims (not the
source); the theorems compare the source-derived definitions above
against them. -/

/-- The specification's characterization of a syntactically valid
address: exactly four dot-separated decimal octets (one to three digits,
value at most 255) and *no other characters*. -/
def specDottedQuad (s : Str) : Bool :=
  match splitOnChar '.' s with
  | [p1, p2, p3, p4] =>
    [p1, p2, p3, p4].all (fun p => octetRun p && decide (digitsVal p ≤ 255))
  | _ => false

/-- The unit outcomes the dispatch loop actually processes: the prefix of
the completion events up to (excluding) the first one whose
`stop_scan`-observed flag is set. -/
def processedEvents : List (Bool × UnitOutcome) → List UnitOutcome
  | [] => []
  | (stopBefore, o) :: rest =>
    if stopBefore then [] else o :: processedEvents rest

/-- The devices of the processed `found` events, in processing order. -/
def processedFound (evs : List (Bool × UnitOutcome)) : List DeviceInfo :=
  (processedEvents evs).filterMap
    (fun o => match o with | .found d => some d | _ => none)

/-- Folding a list of discovered devices into the aggregation map. -/
def foldInsert (ds : List DeviceInfo) (m : List (Str × DeviceInfo)) :
    List (Str × DeviceInfo) :=
  ds.foldl (fun m' d => dictInsert m' (devKey d) d) m

/-- The last device in `ds` whose key is `k`, if any. -/
def lastFound : List DeviceInfo → Str → Option DeviceInfo
  | [], _ => none
  | d :: ds, k =>
    match lastFound ds k with
    | some e => some e
    | none => if devKey d = k then some d else none

/-- Lookup in the aggregation map. -/
def assocFind (m : List (Str × DeviceInfo)) (k : Str) : Option DeviceInfo :=
  (m.find? (fun p => p.1 = k)).map Prod.snd

/-! Concrete values used by counterexamples and witnesses. -/

/-- Default settings except for a thread count above the ceiling. -/
def settingsThreads201 : ScanSettings := { threads := 201 }

/-- Default settings except for a syntactically invalid start address. -/
def settingsInvalidIp : ScanSettings := { ip_start := "999.1.1.1".data }

/-- Default settings except for a syntactically invalid end address. -/
def settingsInvalidIpEnd : ScanSettings := { ip_end := "1.2.3".data }

/-- A valid single-target configuration (one address, one port). -/
def settingsTiny : ScanSettings := { ip_start := "10.0.0.1".data, ip_end := "10.0.0.1".data, port_start := 5555, port_end := 5555, custom_ports := "5555".data }

/-- A device as `_identify_device` builds it for an ADB hit. -/
def devTiny1 : DeviceInfo := { ip := "10.0.0.1".data, port := 5555, device_type := "ADB".data, status := "online".data, device_id := "first".data }

/-- A second device at the same (address, port) key. -/
def devTiny2 : DeviceInfo := { ip := "10.0.0.1".data, port := 5555, device_type := "ADB".data, status := "online".data, device_id := "second".data }

/-- Two completion events that discover the same (address, port) key. -/
def evsTiny : List (Bool × UnitOutcome) := [(false, .found devTiny1), (false, .found devTiny2)]

/-! ## Lemmas: the port set and its sort -/

theorem mem_insertSorted {a p : Int} {l : List Int} :
    a ∈ insertSorted p l ↔ a = p ∨ a ∈ l := by
  induction l with
  | nil => simp [insertSorted]
  | cons x xs ih =>
    by_cases h : p ≤ x
    · simp [insertSorted, h]
    · simp [insertSorted, h, ih]
      tauto

theorem sorted_insertSorted {p : Int} {l : List Int}
    (h : l.Sorted (· ≤ ·)) : (insertSorted p l).Sorted (· ≤ ·) := by
  induction l with
  | nil => simp [insertSorted]
  | cons x xs ih =>
    rw [List.sorted_cons] at h
    by_cases hp : p ≤ x
    · rw [insertSorted, if_pos hp, List.sorted_cons]
      refine ⟨?_, (List.sorted_cons.2 h)⟩
      intro b hb
      rcases List.mem_cons.1 hb with rfl | hb'
      · exact hp
      · exact le_trans hp (h.1 b hb')
    · rw [insertSorted, if_neg hp, List.sorted_cons]
      refine ⟨?_, ih h.2⟩
      intro b hb
      rcases mem_insertSorted.1 hb with rfl | hb'
      · exact le_of_not_le hp
      · exact h.1 b hb'

theorem nodup_insertSorted {p : Int} {l : List Int}
    (hp : p ∉ l) (h : l.Nodup) : (insertSorted p l).Nodup := by
  induction l with
  | nil => simp [insertSorted]
  | cons x xs ih =>
    rw [List.nodup_cons] at h
    by_cases hle : p ≤ x
    · rw [insertSorted, if_pos hle, List.nodup_cons, List.nodup_cons]
      exact ⟨hp, h.1, h.2⟩
    · rw [insertSorted, if_neg hle, List.nodup_cons]
      refine ⟨?_, ih (fun hx => hp (List.mem_cons_of_mem _ hx)) h.2⟩
      intro hx
      rcases mem_insertSorted.1 hx with rfl | hx'
      · exact hp (List.mem_cons_self _ _)
      · exact h.1 hx'

theorem sorted_sortList (l : List Int) : (sortList l).Sorted (· ≤ ·) := by
  induction l with
  | nil => simp [sortList]
  | cons x xs ih => exact sorted_insertSorted ih

theorem mem_sortList {a : Int} {l : List Int} : a ∈ sortList l ↔ a ∈ l := by
  induction l with
  | nil => simp [sortList]
  | cons x xs ih =>
    show a ∈ insertSorted x (sortList xs) ↔ _
    rw [mem_insertSorted, ih]
    simp [or_comm]

theorem nodup_sortList {l : List Int} (h : l.Nodup) : (sortList l).Nodup := by
  induction l with
  | nil => simp [sortList]
  | cons x xs ih =>
    rw [List.nodup_cons] at h
    exact nodup_insertSorted (fun hx => h.1 (mem_sortList.1 hx)) (ih h.2)

theorem mem_setAdd {x p : Int} {s : List Int} :
    x ∈ setAdd s p ↔ x ∈ s ∨ x = p := by
  by_cases h : p ∈ s
  · simp only [setAdd, if_pos h]
    constructor
    · exact Or.inl
    · rintro (hx | rfl) <;> assumption
  · simp [setAdd, if_neg h]

theorem nodup_setAdd {p : Int} {s : List Int} (h : s.Nodup) :
    (setAdd s p).Nodup := by
  by_cases hp : p ∈ s
  · simpa [setAdd, if_pos hp] using h
  · rw [setAdd, if_neg hp]
    simpa [List.nodup_append] using ⟨h, hp⟩

theorem mem_setUnion {x : Int} {s ps : List Int} :
    x ∈ setUnion s ps ↔ x ∈ s ∨ x ∈ ps := by
  induction ps generalizing s with
  | nil => simp [setUnion]
  | cons p ps ih =>
    show x ∈ setUnion (setAdd s p) ps ↔ _
    rw [ih, mem_setAdd]
    simp
    tauto

theorem nodup_setUnion {s ps : List Int} (h : s.Nodup) :
    (setUnion s ps).Nodup := by
  induction ps generalizing s with
  | nil => exact h
  | cons p ps ih => exact ih (nodup_setAdd h)

theorem nodup_addTokens {acc : List Int} (tokens : List Str) (h : acc.Nodup) :
    (addTokens tokens acc).Nodup := by
  induction tokens generalizing acc with
  | nil => exact h
  | cons t ts ih =>
    rw [addTokens]
    cases tokenPorts? t with
    | some s => exact ih (nodup_setUnion h)
    | none => exact h

theorem mem_addTokens_of_mem {x : Int} {acc : List Int} (tokens : List Str)
    (h : x ∈ acc) : x ∈ addTokens tokens acc := by
  induction tokens generalizing acc with
  | nil => exact h
  | cons t ts ih =>
    rw [addTokens]
    cases tokenPorts? t with
    | some s => exact ih (mem_setUnion.2 (Or.inl h))
    | none => exact h

theorem mem_addTokens_middle {x : Int} {t : Str} {S : List Int}
    (pre post : List Str) (acc : List Int)
    (h1 : ∀ u ∈ pre, (tokenPorts? u).isSome)
    (h2 : tokenPorts? t = some S) (hx : x ∈ S) :
    x ∈ addTokens (pre ++ t :: post) acc := by
  induction pre generalizing acc with
  | nil =>
    rw [List.nil_append, addTokens, h2]
    exact mem_addTokens_of_mem post (mem_setUnion.2 (Or.inr hx))
  | cons u pre ih =>
    rw [List.cons_append, addTokens]
    rcases Option.isSome_iff_exists.1 (h1 u (List.mem_cons_self _ _)) with ⟨su, hsu⟩
    rw [hsu]
    exact ih _ (fun v hv => h1 v (List.mem_cons_of_mem _ hv))

/-! ## Claims C7 and C4: `parse_ports` -/

/-- Claim C7 as stated is false: it asserts that for every input the
result is the sorted union of the valid base range and the ports named in
the specification string, but `parse_ports("xyz,9", 5037, 5037)` omits
the named port 9 — the `ValueError` raised while evaluating the token
`"xyz"` abandons the rest of the token list (the `try` wraps the whole
loop), even though `"9"` names a port (second conjunct). -/
theorem claim_C7_counterexample :
    (9 : Int) ∉ parse_ports ("xyz,9".data) 5037 5037 ∧
      tokenPorts? ("9".data) = some [9] ∧
      parse_ports ("xyz,9".data) 5037 5037 = [5037] := by
  decide

/-- Claim C7, amended: `parse_ports("22,80,100-102", 5037, 5037)` returns
exactly `[22, 80, 100, 101, 102, 5037]`, and for every input the returned
list is sorted ascending with duplicates collapsed.  (The union
characterization holds only for the tokens processed before the first
token whose evaluation raises; see C4.) -/
theorem claim_C7_parse_ports :
    parse_ports ("22,80,100-102".data) 5037 5037 = [22, 80, 100, 101, 102, 5037] ∧
      ∀ (spec : Str) (ps pe : Int),
        (parse_ports spec ps pe).Sorted (· ≤ ·) ∧ (parse_ports spec ps pe).Nodup := by
  refine ⟨by decide, ?_⟩
  intro spec ps pe
  refine ⟨sorted_sortList _, nodup_sortList (nodup_addTokens _ ?_)⟩
  by_cases hb : (validate_port ps && validate_port pe) = true
  · simp only [parsePortsTokens, hb, if_pos]
    exact nodup_setUnion List.nodup_nil
  · simp only [parsePortsTokens, hb]
    exact List.nodup_nil

/-- Claim C4 as stated is false: the well-formed token `"80"` of
`"abc,80"` contributes nothing, because the `ValueError` raised by
`int("abc")` is caught *outside* the token loop and abandons the
remaining tokens. -/
theorem claim_C4_counterexample :
    parse_ports ("abc,80".data) 5037 5037 = [5037] ∧
      tokenPorts? ("80".data) = some [80] := by
  decide

/-- Claim C4, amended: a malformed dash token (wrong part count, invalid
or inverted bounds) is skipped and is never fatal, and a token whose
integer parse raises abandons only the *remaining* tokens (also never
fatal); every well-formed token all of whose predecessors evaluate
without raising still contributes its ports to the result. -/
theorem claim_C4_parse_ports (pre post : List Str) (t : Str) (S : List Int)
    (ps pe : Int)
    (h1 : ∀ u ∈ pre, (tokenPorts? u).isSome)
    (h2 : tokenPorts? t = some S) :
    ∀ p ∈ S, p ∈ parsePortsTokens (pre ++ t :: post) ps pe := by
  intro p hp
  exact mem_sortList.2 (mem_addTokens_middle pre post _ h1 h2 hp)

/-- Witness for C4: in `"1-2-3,80,7-5"` the malformed tokens `"1-2-3"`
and `"7-5"` are skipped without raising, and the well-formed `"80"`
contributes its port. -/
theorem claim_C4_witness :
    (80 : Int) ∈ parsePortsTokens ["1-2-3".data, "80".data, "7-5".data] 5037 5037 :=
  claim_C4_parse_ports ["1-2-3".data] ["7-5".data] ("80".data) [80] 5037 5037
    (by decide) (by decide) 80 (by decide)

/-! ## Claim C2: `validate_ip` -/

/-- Claim C2: `validate_ip` rejects `"256.1.1.1"`, `"1.1.1"`,
`"abc.def.1.1"` and accepts `"0.0.0.0"`, `"255.255.255.255"` — but the
claimed characterization ("no other characters"; leading/trailing
whitespace rejected) fails on the code: `"1.1.1.1\n"` is *not* a plain
dotted quad (sixth conjunct) yet `validate_ip` accepts it (last
conjunct), because CPython's `$` anchor also matches just before a single
trailing newline. -/
theorem claim_C2_validate_ip :
    validate_ip ("256.1.1.1".data) = false ∧
      validate_ip ("1.1.1".data) = false ∧
      validate_ip ("abc.def.1.1".data) = false ∧
      validate_ip ("0.0.0.0".data) = true ∧
      validate_ip ("255.255.255.255".data) = true ∧
      validate_ip (" 1.1.1.1".data) = false ∧
      validate_ip ("1.1.1.1 ".data) = false ∧
      specDottedQuad ("1.1.1.1\n".data) = false ∧
      validate_ip ("1.1.1.1\n".data) = true := by
  decide

/-! ## Claim C9: `export_csv` -/

theorem csvWriteRow_toDict (d : DeviceInfo) : csvWriteRow d.toDict = none := by
  have hc : ¬ (d.toDict.all (fun kv => decide (kv.1 ∈ csvFieldnames)) = true) := by
    intro hall
    have hmem : (("manufacturer".data, d.manufacturer) : Str × Str) ∈ d.toDict := by
      simp [DeviceInfo.toDict]
    have h := List.all_eq_true.1 hall _ hmem
    have h' : ("manufacturer".data : Str) ∈ csvFieldnames := of_decide_eq_true h
    exact absurd h' (by decide)
  simp only [csvWriteRow, if_neg hc]

theorem csvWriteRows_eq_nil (devices : List DeviceInfo) :
    csvWriteRows devices = [] := by
  cases devices with
  | nil => rfl
  | cons d ds => simp [csvWriteRows, csvWriteRow_toDict]

/-- Claim C9 is right about the intent but wrong about the code: for
*every* device list, the CSV file contains only the header line
`ip,port,device_type,status,device_id,timestamp` and zero data rows, and
whenever the report is nonempty a `ValueError` is caught (second
conjunct): every `to_dict()` row carries the keys `manufacturer`,
`model`, `version`, which are not in `fieldnames`, so the first
`writerow` raises under `DictWriter`'s default `extrasaction='raise'`. -/
theorem claim_C9_export_csv (devices : List DeviceInfo) :
    (export_csv devices).1 = [List.intercalate [','] csvFieldnames] ∧
      ((export_csv devices).2 = true ↔ devices ≠ []) := by
  have h := csvWriteRows_eq_nil devices
  refine ⟨by simp [export_csv, h], ?_⟩
  rw [export_csv]
  simp only [h]
  cases devices <;> simp

/-! ## Claims C6, C10, C3: `scan_async` control flow -/

/-- Claim C6: when the settings fail validation, `scan_async` emits
exactly one error notification and returns with the engine state
untouched — `is_scanning`, `devices_found` and `scan_result` are
unchanged, no pool is created, and no scan-start notification is sent. -/
theorem claim_C6_invalid_settings (s : ADBScanner) (st : ScanSettings)
    (evs : List (Bool × UnitOutcome)) (h : (st.validate).1 = false) :
    scan_async s st evs = ⟨s, [.validationError (st.validate).2], none⟩ := by
  rcases hv : st.validate with ⟨b, msg⟩
  rw [hv] at h
  cases b
  · simp [scan_async, hv]
  · simp at h

/-- Witness for C6 at a concrete invalid setting. -/
theorem claim_C6_witness :
    (settingsInvalidIp.validate).1 = false ∧
      scan_async {} settingsInvalidIp [] =
        ⟨{}, [.validationError (.invalidIpStart ("999.1.1.1".data))], none⟩ := by
  refine ⟨by decide, ?_⟩
  rw [claim_C6_invalid_settings {} settingsInvalidIp [] (by decide)]
  decide

/-- Claim C10: if `is_scanning` is false when `scan_async` is called, it
is false again when the call returns, on every path — invalid settings
(state untouched), empty target space, or a completed dispatch loop (the
`finally` clause). -/
theorem claim_C10_flag_reset (s : ADBScanner) (st : ScanSettings)
    (evs : List (Bool × UnitOutcome)) (h : s.is_scanning = false) :
    (scan_async s st evs).scanner.is_scanning = false := by
  rcases hv : st.validate with ⟨b, msg⟩
  cases b
  · simp [scan_async, hv, h]
  · simp only [scan_async, hv]
    split
    all_goals split
    all_goals rfl

/-- Witness for C10 at a concrete input. -/
theorem claim_C10_witness :
    (scan_async {} settingsInvalidIpEnd []).scanner.is_scanning = false :=
  claim_C10_flag_reset {} settingsInvalidIpEnd [] (by decide)

/-- Claim C3 as stated is false: a request with `threads = 201` is *not*
clamped to 200 and run — it is rejected by validation, the engine state
is untouched, no pool is created (`workersUsed = none`) and the only
notification is the validation error, so the scan does not proceed. -/
theorem claim_C3_counterexample :
    (settingsThreads201.validate).1 = false ∧
      scan_async {} settingsThreads201 [] =
        ⟨{}, [.validationError (.invalidThreads 201)], none⟩ := by
  decide

theorem validate_true_thread_bounds (st : ScanSettings)
    (h : (st.validate).1 = true) : 1 ≤ st.threads ∧ st.threads ≤ 200 := by
  rw [ScanSettings.validate] at h
  split_ifs at h with h1 h2 h3 h4 h5 h6 h7
  rw [validate_threads] at h6
  simp only [Bool.not_eq_true', Bool.and_eq_false_iff, decide_eq_false_iff_not,
    not_le, not_lt] at h6
  constructor <;> omega

/-- Claim C3, amended: a thread count outside 1–200 — in particular any
value above 200 — is rejected by validation and the scan never starts;
the clamp at source line 355 is unreachable, and any scan that does
create a worker pool uses exactly the validated thread count, which never
exceeds 200. -/
theorem claim_C3_thread_ceiling (s : ADBScanner) (st : ScanSettings)
    (evs : List (Bool × UnitOutcome)) (h : (st.validate).1 = true) :
    st.threads ≤ 200 ∧
      ∀ w, (scan_async s st evs).workersUsed = some w →
        w = st.threads ∧ w ≤ 200 := by
  have hb := validate_true_thread_bounds st h
  refine ⟨hb.2, ?_⟩
  intro w hw
  rcases hv : st.validate with ⟨b, msg⟩
  rw [hv] at h
  cases b
  · simp at h
  · have h200 : ¬ st.threads > 200 := not_lt.2 hb.2
    simp only [scan_async, hv, if_neg h200] at hw
    split at hw
    · simp at hw
    · simp only [Option.some.injEq] at hw
      omega

/-- Witness for C3 at a concrete valid setting: `threads = 50` passes
validation, the pool is created with exactly 50 workers, and 50 ≤ 200. -/
theorem claim_C3_witness :
    (settingsTiny.validate).1 = true ∧
      (scan_async {} settingsTiny []).workersUsed = some 50 ∧
      settingsTiny.threads ≤ 200 ∧ ((50 : Int) = settingsTiny.threads ∧ (50 : Int) ≤ 200) := by
  have h := claim_C3_thread_ceiling {} settingsTiny [] (by decide)
  exact ⟨by decide, by decide, h.1, h.2 50 (by decide)⟩

/-! ## Lemmas: the aggregation map -/

theorem processedFound_stop (o : UnitOutcome) (rest : List (Bool × UnitOutcome)) :
    processedFound ((true, o) :: rest) = [] := rfl

theorem processedFound_found (d : DeviceInfo) (rest : List (Bool × UnitOutcome)) :
    processedFound ((false, .found d) :: rest) = d :: processedFound rest := rfl

theorem processedFound_notFound (rest : List (Bool × UnitOutcome)) :
    processedFound ((false, .notFound) :: rest) = processedFound rest := rfl

theorem processedFound_error (rest : List (Bool × UnitOutcome)) :
    processedFound ((false, .error) :: rest) = processedFound rest := rfl

theorem dictInsert_map_fst (m : List (Str × DeviceInfo)) (k : Str) (v : DeviceInfo) :
    (dictInsert m k v).map Prod.fst =
      if k ∈ m.map Prod.fst then m.map Prod.fst else m.map Prod.fst ++ [k] := by
  induction m with
  | nil => simp [dictInsert]
  | cons p rest ih =>
    rcases p with ⟨k0, v0⟩
    by_cases hk : k0 = k
    · subst hk
      simp [dictInsert]
    · have hk' : ¬ k = k0 := fun h => hk h.symm
      by_cases hmem : k ∈ rest.map Prod.fst <;>
        simp [dictInsert, hk, hk', hmem, ih]

theorem mem_dictInsert_map_fst {k' : Str} (m : List (Str × DeviceInfo))
    (k : Str) (v : DeviceInfo) :
    k' ∈ (dictInsert m k v).map Prod.fst ↔ k' ∈ m.map Prod.fst ∨ k' = k := by
  rw [dictInsert_map_fst]
  split
  · rename_i hmem
    constructor
    · exact Or.inl
    · rintro (h | rfl) <;> assumption
  · simp

theorem dictInsert_nodup {m : List (Str × DeviceInfo)} {k : Str} {v : DeviceInfo}
    (h : (m.map Prod.fst).Nodup) : ((dictInsert m k v).map Prod.fst).Nodup := by
  rw [dictInsert_map_fst]
  split
  · exact h
  · rename_i hmem
    simp [List.nodup_append, h, hmem]

theorem dictInsert_keys_eq {m : List (Str × DeviceInfo)}
    (hm : ∀ p ∈ m, p.1 = devKey p.2) (d : DeviceInfo) :
    ∀ p ∈ dictInsert m (devKey d) d, p.1 = devKey p.2 := by
  induction m with
  | nil =>
    intro p hp
    rcases List.mem_singleton.1 hp with rfl
    rfl
  | cons q rest ih =>
    rcases q with ⟨k0, v0⟩
    intro p hp
    rw [dictInsert] at hp
    split at hp
    · rcases List.mem_cons.1 hp with rfl | hp'
      · rfl
      · exact hm p (List.mem_cons_of_mem _ hp')
    · rcases List.mem_cons.1 hp with rfl | hp'
      · exact hm _ (List.mem_cons_self _ _)
      · exact ih (fun q hq => hm q (List.mem_cons_of_mem _ hq)) p hp'

theorem assocFind_nil (k' : Str) : assocFind [] k' = none := rfl

theorem assocFind_cons_self (k0 : Str) (v0 : DeviceInfo)
    (rest : List (Str × DeviceInfo)) :
    assocFind ((k0, v0) :: rest) k0 = some v0 := by
  simp [assocFind]

theorem assocFind_cons_ne {k0 k' : Str} (v0 : DeviceInfo)
    (rest : List (Str × DeviceInfo)) (h : ¬ k0 = k') :
    assocFind ((k0, v0) :: rest) k' = assocFind rest k' := by
  simp [assocFind, h]

theorem assocFind_dictInsert (m : List (Str × DeviceInfo)) (k : Str)
    (v : DeviceInfo) (k' : Str) :
    assocFind (dictInsert m k v) k' = if k' = k then some v else assocFind m k' := by
  induction m with
  | nil =>
    rw [dictInsert]
    by_cases h : k' = k
    · subst h
      rw [if_pos rfl, assocFind_cons_self]
    · rw [if_neg h, assocFind_cons_ne _ _ (fun hh => h hh.symm), assocFind_nil]
  | cons q rest ih =>
    rcases q with ⟨k0, v0⟩
    rw [dictInsert]
    split
    · rename_i h0
      by_cases h : k' = k
      · subst h
        rw [if_pos rfl, assocFind_cons_self]
      · rw [if_neg h, assocFind_cons_ne _ _ (fun hh => h hh.symm),
          assocFind_cons_ne _ _ (fun hh => h (hh.symm.trans h0))]
    · rename_i h0
      by_cases h : k' = k0
      · subst h
        rw [assocFind_cons_self, if_neg (fun hh : k' = k => h0 hh),
          assocFind_cons_self]
      · rw [assocFind_cons_ne _ _ (fun hh => h hh.symm), ih]
        by_cases hk : k' = k
        · rw [if_pos hk, if_pos hk]
        · rw [if_neg hk, if_neg hk,
            assocFind_cons_ne _ _ (fun hh => h hh.symm)]

theorem assocFind_of_mem {m : List (Str × DeviceInfo)}
    (hnd : (m.map Prod.fst).Nodup) {k : Str} {v : DeviceInfo}
    (hmem : (k, v) ∈ m) : assocFind m k = some v := by
  induction m with
  | nil => simp at hmem
  | cons q rest ih =>
    rcases q with ⟨k0, v0⟩
    rw [List.map_cons, List.nodup_cons] at hnd
    rcases List.mem_cons.1 hmem with h | h
    · rcases Prod.mk.injEq .. ▸ h with ⟨rfl, rfl⟩
      simp [assocFind, List.find?]
    · have hk : ¬ k0 = k := by
        rintro rfl
        exact hnd.1 (List.mem_map.2 ⟨(k0, v), h, rfl⟩)
      rw [assocFind_cons_ne _ _ hk]
      exact ih hnd.2 h

theorem foldInsert_nil (m : List (Str × DeviceInfo)) : foldInsert [] m = m := rfl

theorem foldInsert_cons (d : DeviceInfo) (ds : List DeviceInfo)
    (m : List (Str × DeviceInfo)) :
    foldInsert (d :: ds) m = foldInsert ds (dictInsert m (devKey d) d) := rfl

theorem foldInsert_nodup (ds : List DeviceInfo) {m : List (Str × DeviceInfo)}
    (h : (m.map Prod.fst).Nodup) : ((foldInsert ds m).map Prod.fst).Nodup := by
  induction ds generalizing m with
  | nil => exact h
  | cons d ds ih => exact ih (dictInsert_nodup h)

theorem foldInsert_keys_eq (ds : List DeviceInfo) {m : List (Str × DeviceInfo)}
    (h : ∀ p ∈ m, p.1 = devKey p.2) :
    ∀ p ∈ foldInsert ds m, p.1 = devKey p.2 := by
  induction ds generalizing m with
  | nil => exact h
  | cons d ds ih => exact ih (dictInsert_keys_eq h d)

theorem mem_foldInsert_map_fst {k : Str} (ds : List DeviceInfo)
    (m : List (Str × DeviceInfo)) :
    k ∈ (foldInsert ds m).map Prod.fst ↔
      k ∈ m.map Prod.fst ∨ k ∈ ds.map devKey := by
  induction ds generalizing m with
  | nil => simp [foldInsert]
  | cons d ds ih =>
    rw [foldInsert_cons, ih, mem_dictInsert_map_fst]
    simp
    tauto

theorem assocFind_foldInsert_none (ds : List DeviceInfo) {k : Str}
    (h : lastFound ds k = none) (m : List (Str × DeviceInfo)) :
    assocFind (foldInsert ds m) k = assocFind m k := by
  induction ds generalizing m with
  | nil => rfl
  | cons d ds ih =>
    rw [lastFound] at h
    cases hl : lastFound ds k with
    | some e' => rw [hl] at h; cases h
    | none =>
      rw [hl] at h
      by_cases hdk : devKey d = k
      · rw [if_pos hdk] at h
        cases h
      · rw [foldInsert_cons, ih hl, assocFind_dictInsert,
          if_neg (fun hh : k = devKey d => hdk hh.symm)]

theorem assocFind_foldInsert_some (ds : List DeviceInfo) {k : Str} {e : DeviceInfo}
    (h : lastFound ds k = some e) (m : List (Str × DeviceInfo)) :
    assocFind (foldInsert ds m) k = some e := by
  induction ds generalizing m with
  | nil => simp [lastFound] at h
  | cons d ds ih =>
    rw [lastFound] at h
    rw [foldInsert_cons]
    cases hl : lastFound ds k with
    | some e' =>
      rw [hl] at h
      cases h
      exact ih hl _
    | none =>
      rw [hl] at h
      by_cases hdk : devKey d = k
      · rw [if_pos hdk] at h
        cases h
        rw [assocFind_foldInsert_none ds hl, assocFind_dictInsert, if_pos hdk.symm]
      · rw [if_neg hdk] at h
        cases h

theorem scanLoop_map_eq (evs : List (Bool × UnitOutcome)) (n : Nat)
    (m : List (Str × DeviceInfo)) (total : Nat) :
    (scanLoop evs n m total).2.1 = foldInsert (processedFound evs) m := by
  induction evs generalizing n m with
  | nil => rfl
  | cons ev rest ih =>
    rcases ev with ⟨stop, o⟩
    cases stop
    · cases o with
      | found d =>
        rw [processedFound_found, foldInsert_cons]
        simpa [scanLoop] using ih (n + 1) (dictInsert m (devKey d) d)
      | notFound =>
        rw [processedFound_notFound]
        simp only [scanLoop]
        by_cases hmod : (n + 1) % 10 = 0
        · rw [if_pos hmod]
          exact ih (n + 1) m
        · rw [if_neg hmod]
          exact ih (n + 1) m
      | error =>
        rw [processedFound_error]
        simpa [scanLoop] using ih (n + 1) m
    · cases o <;> rfl

/-! ## Claim C5: de-duplication of the final report -/

theorem foldInsert_props (evs : List (Bool × UnitOutcome)) :
    (∀ p ∈ foldInsert (processedFound evs) [], p.1 = devKey p.2) ∧
      ((foldInsert (processedFound evs) []).map Prod.fst).Nodup ∧
      ∀ x, x ∈ (foldInsert (processedFound evs) []).map Prod.fst ↔
        x ∈ (processedFound evs).map devKey := by
  refine ⟨foldInsert_keys_eq _ (by simp), foldInsert_nodup _ (by simp), ?_⟩
  intro x
  rw [mem_foldInsert_map_fst]
  simp

theorem scanLoop_report (evs : List (Bool × UnitOutcome)) (total : Nat) :
    (((scanLoop evs 0 [] total).2.1.map Prod.snd).map devKey).Nodup ∧
      ((scanLoop evs 0 [] total).2.1.map Prod.snd).length =
        ((processedFound evs).map devKey).toFinset.card ∧
      ∀ d ∈ (scanLoop evs 0 [] total).2.1.map Prod.snd,
        lastFound (processedFound evs) (devKey d) = some d := by
  rw [scanLoop_map_eq evs 0 [] total]
  rcases foldInsert_props evs with ⟨hpair, hnd, hmem⟩
  have hfst : ((foldInsert (processedFound evs) []).map Prod.snd).map devKey =
      (foldInsert (processedFound evs) []).map Prod.fst := by
    rw [List.map_map]
    exact List.map_congr_left (fun p hp => (hpair p hp).symm)
  refine ⟨?_, ?_, ?_⟩
  · rw [hfst]
    exact hnd
  · rw [List.length_map]
    have h1 : (foldInsert (processedFound evs) []).length =
        ((foldInsert (processedFound evs) []).map Prod.fst).length := by
      rw [List.length_map]
    rw [h1, ← List.toFinset_card_of_nodup hnd]
    congr 1
    apply Finset.ext
    intro x
    rw [List.mem_toFinset, List.mem_toFinset]
    exact hmem x
  · intro d hd
    rcases List.mem_map.1 hd with ⟨p, hp, rfl⟩
    have hkey : p = (devKey p.2, p.2) := Prod.ext (hpair p hp) rfl
    have hmemM : (devKey p.2, p.2) ∈ foldInsert (processedFound evs) [] :=
      hkey ▸ hp
    have hassoc := assocFind_of_mem hnd hmemM
    cases hl : lastFound (processedFound evs) (devKey p.2) with
    | none =>
      rw [assocFind_foldInsert_none _ hl, assocFind_nil] at hassoc
      cases hassoc
    | some e =>
      rw [assocFind_foldInsert_some _ hl] at hassoc
      cases hassoc
      rfl

/-- Claim C5: for every run that actually scans (a worker pool was
created), the final report holds at most one record per (address, port)
key (the key list is duplicate-free), `total_found` equals the number of
records, that number equals the number of distinct keys among the
processed discoveries, and each record is exactly the *last* discovery
processed for its key (last-write-wins). -/
theorem claim_C5_last_write_wins (s : ADBScanner) (st : ScanSettings)
    (evs : List (Bool × UnitOutcome))
    (h : (scan_async s st evs).workersUsed.isSome = true) :
    ((scan_async s st evs).scanner.scan_result.devices.map devKey).Nodup ∧
      (scan_async s st evs).scanner.scan_result.total_found =
        ((scan_async s st evs).scanner.scan_result.devices.length : Int) ∧
      (scan_async s st evs).scanner.scan_result.devices.length =
        ((processedFound evs).map devKey).toFinset.card ∧
      ∀ d ∈ (scan_async s st evs).scanner.scan_result.devices,
        lastFound (processedFound evs) (devKey d) = some d := by
  rcases hv : st.validate with ⟨b, msg⟩
  cases b
  · rw [scan_async.eq_def, hv] at h
    simp at h
  · rw [scan_async.eq_def, hv] at h ⊢
    simp only at h ⊢
    by_cases ht : st.threads > 200
    · rw [if_pos ht] at h ⊢
      split at h
      · simp at h
      · rename_i hne
        rw [if_neg hne]
        exact ⟨(scanLoop_report evs _).1, by simp, (scanLoop_report evs _).2.1,
          (scanLoop_report evs _).2.2⟩
    · rw [if_neg ht] at h ⊢
      split at h
      · simp at h
      · rename_i hne
        rw [if_neg hne]
        exact ⟨(scanLoop_report evs _).1, by simp, (scanLoop_report evs _).2.1,
          (scanLoop_report evs _).2.2⟩

/-- Witness for C5: a run over one target where two units discover the
same key; the report keeps exactly one record, the one processed last. -/
theorem claim_C5_witness :
    (scan_async {} settingsTiny evsTiny).workersUsed.isSome = true ∧
      ((scan_async {} settingsTiny evsTiny).scanner.scan_result.devices.map devKey).Nodup ∧
      lastFound (processedFound evsTiny) (devKey devTiny2) = some devTiny2 := by
  have h := claim_C5_last_write_wins {} settingsTiny evsTiny (by decide)
  exact ⟨by decide, h.1, h.2.2.2 devTiny2 (by decide)⟩

/-! ## Lemmas: the IP range generator -/

theorem tupLe_iff {a b c d w x y z : Int}
    (hb : 0 ≤ b) (hb' : b ≤ 255) (hc : 0 ≤ c) (hc' : c ≤ 255)
    (hd : 0 ≤ d) (hd' : d ≤ 255)
    (hx : 0 ≤ x) (hx' : x ≤ 255) (hy : 0 ≤ y) (hy' : y ≤ 255)
    (hz : 0 ≤ z) (hz' : z ≤ 255) :
    tupLe (a, b, c, d) (w, x, y, z) = true ↔
      tupNum (a, b, c, d) ≤ tupNum (w, x, y, z) := by
  simp only [tupLe, tupNum, Bool.or_eq_true, Bool.and_eq_true, decide_eq_true_eq]
  omega

theorem tupNum_incTup {a b c d : Int}
    (hd : 0 ≤ d) (hd' : d ≤ 255) (hc : 0 ≤ c) (hc' : c ≤ 255)
    (hb : 0 ≤ b) (hb' : b ≤ 255) :
    tupNum (incTup (a, b, c, d)) = tupNum (a, b, c, d) + 1 := by
  rw [incTup]
  split_ifs <;> simp only [tupNum] <;> omega

theorem incTup_bounds {a b c d : Int} (ha : 0 ≤ a)
    (hb : 0 ≤ b) (hb' : b ≤ 255) (hc : 0 ≤ c) (hc' : c ≤ 255)
    (hd : 0 ≤ d) (hd' : d ≤ 255) :
    0 ≤ (incTup (a, b, c, d)).1 ∧
      0 ≤ (incTup (a, b, c, d)).2.1 ∧ (incTup (a, b, c, d)).2.1 ≤ 255 ∧
      0 ≤ (incTup (a, b, c, d)).2.2.1 ∧ (incTup (a, b, c, d)).2.2.1 ≤ 255 ∧
      0 ≤ (incTup (a, b, c, d)).2.2.2 ∧ (incTup (a, b, c, d)).2.2.2 ≤ 255 := by
  rw [incTup]
  split_ifs <;> simp <;> omega

theorem numToTup_tupNum {a b c d : Int}
    (hb : 0 ≤ b) (hb' : b ≤ 255)
    (hc : 0 ≤ c) (hc' : c ≤ 255) (hd : 0 ≤ d) (hd' : d ≤ 255) :
    numToTup (tupNum (a, b, c, d)) = (a, b, c, d) := by
  simp only [numToTup, tupNum, Prod.mk.injEq]
  refine ⟨?_, ?_, ?_, ?_⟩ <;> omega

theorem genLoop_eq (fuel : Nat) (a b c d w x y z : Int)
    (ha : 0 ≤ a) (hb : 0 ≤ b) (hb' : b ≤ 255) (hc : 0 ≤ c) (hc' : c ≤ 255)
    (hd : 0 ≤ d) (hd' : d ≤ 255)
    (hw : 0 ≤ w) (hw' : w ≤ 255) (hx : 0 ≤ x) (hx' : x ≤ 255)
    (hy : 0 ≤ y) (hy' : y ≤ 255) (hz : 0 ≤ z) (hz' : z ≤ 255)
    (hfuel : tupNum (w, x, y, z) + 1 - tupNum (a, b, c, d) ≤ (fuel : Int)) :
    genLoop fuel (a, b, c, d) (w, x, y, z) =
      addrSeq (tupNum (a, b, c, d)) (tupNum (w, x, y, z)) := by
  induction fuel generalizing a b c d with
  | zero =>
    have h0 : (tupNum (w, x, y, z) + 1 - tupNum (a, b, c, d)).toNat = 0 := by
      simp only [Nat.cast_zero] at hfuel
      omega
    simp [genLoop, addrSeq, h0]
  | succ n ih =>
    by_cases hle : tupNum (a, b, c, d) ≤ tupNum (w, x, y, z)
    · have htle : tupLe (a, b, c, d) (w, x, y, z) = true :=
        (tupLe_iff hb hb' hc hc' hd hd' hx hx' hy hy' hz hz').2 hle
      have ha' : a ≤ 255 := by
        simp only [tupNum] at hle
        omega
      rcases hinc : incTup (a, b, c, d) with ⟨a', b', c', d'⟩
      have hbnds := incTup_bounds ha hb hb' hc hc' hd hd'
      rw [hinc] at hbnds
      have hnum : tupNum (a', b', c', d') = tupNum (a, b, c, d) + 1 := by
        rw [← hinc]
        exact tupNum_incTup hd hd' hc hc' hb hb'
      have hrec := ih a' b' c' d' hbnds.1 hbnds.2.1 hbnds.2.2.1 hbnds.2.2.2.1
        hbnds.2.2.2.2.1 hbnds.2.2.2.2.2.1 hbnds.2.2.2.2.2.2
        (by rw [hnum]; omega)
      rw [genLoop, if_pos htle, hinc, hrec]
      have hk : (tupNum (w, x, y, z) + 1 - tupNum (a, b, c, d)).toNat =
          (tupNum (w, x, y, z) + 1 - (tupNum (a, b, c, d) + 1)).toNat + 1 := by
        omega
      rw [addrSeq, addrSeq, hnum, hk, List.range_succ_eq_map, List.map_cons,
        List.map_map]
      refine congrArg₂ List.cons ?_ ?_
      · rw [Nat.cast_zero, add_zero, numToTup_tupNum hb hb' hc hc' hd hd']
      · refine List.map_congr_left (fun i _ => ?_)
        simp only [Function.comp_apply]
        have harg : tupNum (a, b, c, d) + 1 + (i : Int) =
            tupNum (a, b, c, d) + ((Nat.succ i : Nat) : Int) := by
          push_cast
          omega
        rw [harg]
    · have htle : tupLe (a, b, c, d) (w, x, y, z) = false := by
        rw [← Bool.not_eq_true]
        intro hco
        exact hle ((tupLe_iff hb hb' hc hc' hd hd' hx hx' hy hy' hz hz').1 hco)
      have h0 : (tupNum (w, x, y, z) + 1 - tupNum (a, b, c, d)).toNat = 0 := by
        omega
      rw [genLoop, if_neg (by simp [htle])]
      simp [addrSeq, h0]

theorem digitChar_isDigit : ∀ d : Nat, d < 10 → (Nat.digitChar d).isDigit = true := by
  decide

theorem digitChar_val : ∀ d : Nat, d < 10 → (Nat.digitChar d).toNat - 48 = d := by
  decide

theorem natStrAux_digits : ∀ (fuel n : Nat), (natStrAux fuel n).all Char.isDigit = true := by
  intro fuel
  induction fuel with
  | zero => intro n; rfl
  | succ m ih =>
    intro n
    rw [natStrAux]
    by_cases h : n < 10
    · rw [if_pos h]
      simp [digitChar_isDigit n h]
    · rw [if_neg h]
      rw [List.all_append, ih (n / 10)]
      simp [digitChar_isDigit (n % 10) (Nat.mod_lt n (by omega))]

theorem natStrAux_ne_nil (fuel n : Nat) : natStrAux (fuel + 1) n ≠ [] := by
  rw [natStrAux]
  by_cases h : n < 10
  · rw [if_pos h]
    simp
  · rw [if_neg h]
    simp

theorem digitsVal_append (l : Str) (c : Char) :
    digitsVal (l ++ [c]) = 10 * digitsVal l + (c.toNat - 48) := by
  simp [digitsVal, List.foldl_append]

theorem natStrAux_val : ∀ (fuel n : Nat), n < 10 ^ fuel →
    digitsVal (natStrAux fuel n) = n := by
  intro fuel
  induction fuel with
  | zero =>
    intro n hn
    simp only [pow_zero, Nat.lt_one_iff] at hn
    subst hn
    rfl
  | succ m ih =>
    intro n hn
    rw [natStrAux]
    by_cases h : n < 10
    · rw [if_pos h]
      show 10 * 0 + ((Nat.digitChar n).toNat - 48) = n
      have := digitChar_val n h
      omega
    · have hdiv : n / 10 < 10 ^ m := by
        refine Nat.div_lt_of_lt_mul ?_
        rw [pow_succ, Nat.mul_comm] at hn
        exact hn
      rw [if_neg h, digitsVal_append, ih (n / 10) hdiv,
        digitChar_val (n % 10) (Nat.mod_lt n (by omega))]
      omega

theorem natStr_val (n : Nat) : digitsVal (natStr n) = n :=
  natStrAux_val (n + 1) n
    (lt_of_lt_of_le (Nat.lt_pow_self (by omega) n)
      (Nat.pow_le_pow_right (by omega) (Nat.le_succ n)))

theorem isPySpace_of_isDigit {c : Char} (h : c.isDigit = true) :
    isPySpace c = false := by
  cases hc : isPySpace c
  · rfl
  · exfalso
    rw [isPySpace] at hc
    simp only [Bool.or_eq_true, beq_iff_eq] at hc
    have hc' : c = ' ' ∨ c = '\t' ∨ c = '\n' ∨ c = '\r' ∨ c = '\x0b' ∨ c = '\x0c' := by
      tauto
    rcases hc' with rfl | rfl | rfl | rfl | rfl | rfl <;>
      exact absurd h (by decide)

theorem dropWhile_space_eq_self {l : Str} (h : ∀ c ∈ l, isPySpace c = false) :
    l.dropWhile isPySpace = l := by
  cases l with
  | nil => rfl
  | cons c cs =>
    rw [List.dropWhile_cons, if_neg]
    rw [h c (List.mem_cons_self _ _)]
    simp

theorem pyStrip_eq_self {l : Str} (h : ∀ c ∈ l, isPySpace c = false) :
    pyStrip l = l := by
  rw [pyStrip, dropWhile_space_eq_self h,
    dropWhile_space_eq_self (fun c hc => h c (List.mem_reverse.1 hc)),
    List.reverse_reverse]

theorem pyInt?_natStr (n : Nat) : pyInt? (natStr n) = some (n : Int) := by
  have hd : (natStr n).all Char.isDigit = true := natStrAux_digits (n + 1) n
  have hne : natStr n ≠ [] := natStrAux_ne_nil n n
  have hstrip : pyStrip (natStr n) = natStr n :=
    pyStrip_eq_self
      (fun c hc => isPySpace_of_isDigit (List.all_eq_true.1 hd c hc))
  have hval : digitsVal (natStr n) = n := natStr_val n
  rcases hns : natStr n with _ | ⟨c, ds⟩
  · exact absurd hns hne
  · rw [hns] at hd hstrip hval
    have hcd : c.isDigit = true :=
      List.all_eq_true.1 hd c (List.mem_cons_self _ _)
    rw [pyInt?.eq_def, hstrip]
    dsimp only
    rw [if_neg (fun hh : c = '+' => absurd (hh ▸ hcd) (by decide)),
      if_neg (fun hh : c = '-' => absurd (hh ▸ hcd) (by decide)),
      if_pos hd, hval]

theorem intStr_nonneg {i : Int} (h : 0 ≤ i) : intStr i = natStr i.toNat := by
  rw [intStr, if_neg (not_lt.2 h)]

theorem pyInt?_intStr {i : Int} (h : 0 ≤ i) : pyInt? (intStr i) = some i := by
  rw [intStr_nonneg h, pyInt?_natStr]
  rw [Int.toNat_of_nonneg h]

theorem intStr_no_sep {i : Int} (h : 0 ≤ i) :
    ∀ ch ∈ intStr i, (ch == '.') = false := by
  intro ch hch
  rw [intStr_nonneg h] at hch
  have hdig : ch.isDigit = true :=
    List.all_eq_true.1 (natStrAux_digits _ _) ch hch
  cases hd : (ch == '.')
  · rfl
  · exfalso
    rw [beq_iff_eq] at hd
    exact absurd (hd ▸ hdig) (by decide)

theorem splitOnChar_no_sep {sep : Char} {xs : Str}
    (h : ∀ c ∈ xs, (c == sep) = false) : splitOnChar sep xs = [xs] := by
  induction xs with
  | nil => rfl
  | cons x xs ih =>
    rw [splitOnChar]
    rw [ih (fun c hc => h c (List.mem_cons_of_mem _ hc))]
    simp [h x (List.mem_cons_self _ _)]

theorem splitOnChar_append {sep : Char} (ys : Str) {xs : Str}
    (h : ∀ c ∈ xs, (c == sep) = false) :
    splitOnChar sep (xs ++ sep :: ys) = xs :: splitOnChar sep ys := by
  induction xs with
  | nil =>
    rw [List.nil_append, splitOnChar]
    simp
  | cons x xs ih =>
    rw [List.cons_append, splitOnChar,
      ih (fun c hc => h c (List.mem_cons_of_mem _ hc))]
    simp [h x (List.mem_cons_self _ _)]

theorem splitOnChar_tupStr (t : Tup4) (ha : 0 ≤ t.1) (hb : 0 ≤ t.2.1)
    (hc : 0 ≤ t.2.2.1) (hd : 0 ≤ t.2.2.2) :
    splitOnChar '.' (tupStr t) =
      [intStr t.1, intStr t.2.1, intStr t.2.2.1, intStr t.2.2.2] := by
  rw [tupStr, splitOnChar_append _ (intStr_no_sep ha),
    splitOnChar_append _ (intStr_no_sep hb),
    splitOnChar_append _ (intStr_no_sep hc),
    splitOnChar_no_sep (intStr_no_sep hd)]

theorem ipNum_tupStr (t : Tup4) (ha : 0 ≤ t.1) (hb : 0 ≤ t.2.1)
    (hc : 0 ≤ t.2.2.1) (hd : 0 ≤ t.2.2.2) :
    ipNum (tupStr t) = tupNum t := by
  have htup : ip_to_tuple (tupStr t) = [t.1, t.2.1, t.2.2.1, t.2.2.2] := by
    rw [ip_to_tuple.eq_def, splitOnChar_tupStr t ha hb hc hd]
    simp [List.mapM.loop, pyInt?_intStr ha, pyInt?_intStr hb,
      pyInt?_intStr hc, pyInt?_intStr hd]
  rw [ipNum.eq_def, htup]

theorem tupNum_numToTup (v : Int) : tupNum (numToTup v) = v := by
  simp only [tupNum, numToTup]
  omega

theorem numToTup_nonneg {v : Int} (h0 : 0 ≤ v) :
    0 ≤ (numToTup v).1 ∧ 0 ≤ (numToTup v).2.1 ∧
      0 ≤ (numToTup v).2.2.1 ∧ 0 ≤ (numToTup v).2.2.2 := by
  simp only [numToTup]
  refine ⟨?_, ?_, ?_, ?_⟩ <;> omega

theorem reMatch_split (s : Str) (h : reMatchIp s = true) :
    ∃ p1 p2 p3 p4, splitOnChar '.' s = [p1, p2, p3, p4] := by
  rw [reMatchIp.eq_def] at h
  rcases hsp : splitOnChar '.' s with _ | ⟨p1, _ | ⟨p2, _ | ⟨p3, _ | ⟨p4, _ | ⟨p5, rest⟩⟩⟩⟩⟩ <;>
    rw [hsp] at h
  · cases h
  · cases h
  · cases h
  · cases h
  · exact ⟨p1, p2, p3, p4, rfl⟩
  · cases h

theorem octetValOk_some {p : Str} (h : octetValOk p = true) :
    ∃ v : Int, pyInt? p = some v ∧ 0 ≤ v ∧ v ≤ 255 := by
  rw [octetValOk.eq_def] at h
  cases hp : pyInt? p with
  | none => rw [hp] at h; cases h
  | some v =>
    rw [hp] at h
    simp only [Bool.and_eq_true, decide_eq_true_eq] at h
    exact ⟨v, rfl, h.1, h.2⟩

theorem validate_ip_parts (s : Str) (hval : validate_ip s = true) :
    ∃ a b c d : Int, ip_to_tuple s = [a, b, c, d] ∧
      0 ≤ a ∧ a ≤ 255 ∧ 0 ≤ b ∧ b ≤ 255 ∧ 0 ≤ c ∧ c ≤ 255 ∧ 0 ≤ d ∧ d ≤ 255 ∧
      ipNum s = tupNum (a, b, c, d) := by
  rw [validate_ip, Bool.and_eq_true] at hval
  obtain ⟨hre, hall⟩ := hval
  obtain ⟨p1, p2, p3, p4, hsp⟩ := reMatch_split s hre
  rw [hsp] at hall
  simp only [List.all_cons, List.all_nil, Bool.and_eq_true, Bool.and_true] at hall
  obtain ⟨h1, h2, h3, h4⟩ := hall
  obtain ⟨v1, hv1, hb1, hb1'⟩ := octetValOk_some h1
  obtain ⟨v2, hv2, hb2, hb2'⟩ := octetValOk_some h2
  obtain ⟨v3, hv3, hb3, hb3'⟩ := octetValOk_some h3
  obtain ⟨v4, hv4, hb4, hb4'⟩ := octetValOk_some h4
  have htup : ip_to_tuple s = [v1, v2, v3, v4] := by
    rw [ip_to_tuple.eq_def, hsp]
    simp [List.mapM.loop, hv1, hv2, hv3, hv4]
  refine ⟨v1, v2, v3, v4, htup, hb1, hb1', hb2, hb2', hb3, hb3', hb4, hb4', ?_⟩
  rw [ipNum.eq_def, htup]

/-- Claim C1 as stated is false on its invalid-endpoint clause: the
endpoint `"1.1.1.1\n"` is *not* a syntactically valid dotted quad (it
carries a trailing newline — first conjunct, the specification's own
characterization), so the claim demands the empty sequence — yet
`generate_ip_range("1.1.1.1\n", "1.1.1.2")` returns a non-empty
two-element list, because `validate_ip`'s regex `$` anchor tolerates one
final newline and `int("1\n") = 1`. -/
theorem claim_C1_counterexample :
    specDottedQuad ("1.1.1.1\n".data) = false ∧
      generate_ip_range ("1.1.1.1\n".data) ("1.1.1.2".data) =
        ["1.1.1.1".data, "1.1.1.2".data] := by
  decide

/-- Claim C1, amended: with "syntactically valid" read as the code's own
`validate_ip` gate (which, per C2, also admits exactly one trailing
newline), `generate_ip_range` returns exactly the canonical dotted-quad
strings of the consecutive 32-bit values from start to end — so exactly
`end - start + 1` addresses (octet 4 rolling into octet 3 and so on),
and the re-parsed numeric values of the returned strings are strictly
ascending; when start exceeds end it returns the empty list (no
wraparound); and when either endpoint fails `validate_ip` it returns the
empty list. -/
theorem claim_C1_generate_ip_range (s t : Str) :
    ((validate_ip s && validate_ip t) = false → generate_ip_range s t = []) ∧
      (validate_ip s = true → validate_ip t = true →
        generate_ip_range s t = addrSeq (ipNum s) (ipNum t) ∧
          (generate_ip_range s t).length = (ipNum t + 1 - ipNum s).toNat ∧
          (ipNum t < ipNum s → generate_ip_range s t = []) ∧
          ((generate_ip_range s t).map ipNum).Pairwise (· < ·)) := by
  constructor
  · intro hff
    rw [generate_ip_range.eq_def, hff]
    rfl
  · intro hs ht
    obtain ⟨a, b, c, d, htupS, ha, ha', hb, hb', hc, hc', hd, hd', hnumS⟩ :=
      validate_ip_parts s hs
    obtain ⟨w, x, y, z, htupT, hw, hw', hx, hx', hy, hy', hz, hz', hnumT⟩ :=
      validate_ip_parts t ht
    have hmain : generate_ip_range s t = addrSeq (ipNum s) (ipNum t) := by
      rw [generate_ip_range.eq_def, hs, ht, htupS, htupT, hnumS, hnumT]
      simp only [Bool.and_self, if_pos]
      exact genLoop_eq 4294967296 a b c d w x y z ha hb hb' hc hc' hd hd'
        hw hw' hx hx' hy hy' hz hz'
        (by simp only [tupNum]; push_cast; omega)
    have h0 : 0 ≤ ipNum s := by
      rw [hnumS]
      simp only [tupNum]
      omega
    have h1 : ipNum t < 4294967296 := by
      rw [hnumT]
      simp only [tupNum]
      omega
    refine ⟨hmain, ?_, ?_, ?_⟩
    · rw [hmain, addrSeq, List.length_map, List.length_range]
    · intro hlt
      rw [hmain, addrSeq]
      have hz0 : (ipNum t + 1 - ipNum s).toNat = 0 := by omega
      rw [hz0]
      rfl
    · rw [hmain, addrSeq, List.map_map]
      have hcong : ∀ i ∈ List.range (ipNum t + 1 - ipNum s).toNat,
          (ipNum ∘ fun (i : Nat) => tupStr (numToTup (ipNum s + (i : Int)))) i =
            ipNum s + (i : Int) := by
        intro i hi
        rw [List.mem_range] at hi
        have hv0 : 0 ≤ ipNum s + (i : Int) := by omega
        rcases numToTup_nonneg hv0 with ⟨n1, n2, n3, n4⟩
        rw [Function.comp_apply, ipNum_tupStr _ n1 n2 n3 n4, tupNum_numToTup]
      rw [List.map_congr_left hcong]
      refine List.Pairwise.map _ ?_ (List.pairwise_lt_range _)
      intro i j hij
      omega

/-- Witness for C1 at concrete endpoints spanning three addresses. -/
theorem claim_C1_witness :
    validate_ip ("10.0.0.1".data) = true ∧ validate_ip ("10.0.0.3".data) = true ∧
      generate_ip_range ("10.0.0.1".data) ("10.0.0.3".data) =
        addrSeq (ipNum ("10.0.0.1".data)) (ipNum ("10.0.0.3".data)) ∧
      (generate_ip_range ("10.0.0.1".data) ("10.0.0.3".data)).length =
        (ipNum ("10.0.0.3".data) + 1 - ipNum ("10.0.0.1".data)).toNat ∧
      generate_ip_range ("1.1.1".data) ("10.0.0.3".data) = [] := by
  have h := (claim_C1_generate_ip_range ("10.0.0.1".data) ("10.0.0.3".data)).2
    (by decide) (by decide)
  have h' := (claim_C1_generate_ip_range ("1.1.1".data) ("10.0.0.3".data)).1
    (by decide)
  exact ⟨by decide, by decide, h.1, h.2.1, h'⟩

end AdbScanner
